import Mathlib

/-!
Verification of the Pharos download/install/indexing pipeline.

Shallow embedding of the core of `src/Pharos/download.py` and
`src/Pharos/autoinstall.py`.  File-system and network effects are made
explicit: each operation takes the relevant pre-state plus an oracle
describing the outcome of every fallible external step (HTTP request,
archive extraction, file write), and returns the post-state it leaves
behind, exactly following the control flow of the Python source.
-/

namespace Pharos

/-! ## Fingerprint ledger (manifest) — `Downloader._update_manifest`

`Port` mirrors the dataclass in `config.py`.  A ledger partition entry is
a JSON object loaded from disk, where any key may be missing, so every
field of `LedgerRec` is optional.  `Port.asdict` is the record appended
by `_update_manifest` (`dataclasses.asdict`). -/

structure Port where
  name : String
  title : String
  desc : String
  download_url : String
  image_path : Option String
  date_updated : Option String
  size : Option Nat
  md5 : Option String
deriving DecidableEq

structure LedgerRec where
  name : Option String
  title : Option String
  desc : Option String
  download_url : Option String
  image_path : Option (Option String)
  date_updated : Option (Option String)
  size : Option (Option Nat)
  md5 : Option (Option String)
deriving DecidableEq

def Port.asdict (p : Port) : LedgerRec :=
  ⟨some p.name, some p.title, some p.desc, some p.download_url,
   some p.image_path, some p.date_updated, some p.size, some p.md5⟩

/-- `d.get("name", "")` as used in `_update_manifest`. -/
def recName (d : LedgerRec) : String := d.name.getD ""

inductive Kind
  | port
  | bottle
deriving DecidableEq

def Kind.other : Kind → Kind
  | .port => .bottle
  | .bottle => .port

/-- The ledger document `{"ports": [...], "bottles": [...]}`. -/
structure Manifest where
  ports : List LedgerRec
  bottles : List LedgerRec
deriving DecidableEq

def Manifest.part : Manifest → Kind → List LedgerRec
  | m, .port => m.ports
  | m, .bottle => m.bottles

/-- The in-memory document update of `Downloader._update_manifest`
(download.py lines 220–228): drop every record of the target kind's
partition whose name matches the package name case-insensitively, append
the new record, and leave the other partition exactly as read. -/
def update_manifest_doc (data : Manifest) (p : Port) (kind : Kind) : Manifest :=
  let keep : LedgerRec → Bool := fun d => !((recName d).toLower == p.name.toLower)
  match kind with
  | .port => { data with ports := data.ports.filter keep ++ [p.asdict] }
  | .bottle => { data with bottles := data.bottles.filter keep ++ [p.asdict] }

lemma countP_filter_not_self {α : Type} (l : List α) (q : α → Bool) :
    (l.filter fun a => !q a).countP q = 0 := by
  rw [List.countP_eq_zero]
  intro a ha
  rcases List.mem_filter.mp ha with ⟨-, h2⟩
  simpa using h2

lemma countP_filter_le {α : Type} (l : List α) (keep q : α → Bool) :
    (l.filter keep).countP q ≤ l.countP q :=
  (List.filter_sublist l).countP_le q

/-- C1: recording a package under a kind leaves exactly one record in the
target partition whose name matches the package's name case-insensitively,
leaves the other kind's partition untouched, and preserves the at-most-one
record-per-case-insensitive-name invariant of the target partition. -/
theorem update_manifest_unique_per_name (data : Manifest) (p : Port) (k : Kind) :
    ((update_manifest_doc data p k).part k).countP
      (fun d => (recName d).toLower == p.name.toLower) = 1
    ∧ (update_manifest_doc data p k).part k.other = data.part k.other
    ∧ ∀ s : String,
        (data.part k).countP (fun d => (recName d).toLower == s) ≤ 1 →
        ((update_manifest_doc data p k).part k).countP
          (fun d => (recName d).toLower == s) ≤ 1 := by
  refine ⟨?_, ?_, ?_⟩
  · cases k <;>
      simp [update_manifest_doc, Manifest.part, List.countP_append,
        countP_filter_not_self, List.countP_cons, recName, Port.asdict]
  · cases k <;> simp [update_manifest_doc, Manifest.part, Kind.other]
  · intro s h
    by_cases hs : p.name.toLower = s
    · subst hs
      cases k <;>
        simp [update_manifest_doc, Manifest.part, List.countP_append,
          countP_filter_not_self, List.countP_cons, recName, Port.asdict]
    · have hpred : ((recName p.asdict).toLower == s) = false := by
        simp [recName, Port.asdict]
        exact hs
      cases k
      · simp only [update_manifest_doc, Manifest.part, List.countP_append,
          List.countP_cons, List.countP_nil, hpred, Bool.false_eq_true,
          if_false, Nat.add_zero]
        have hle := countP_filter_le data.ports
          (fun d => !((recName d).toLower == p.name.toLower))
          (fun d => (recName d).toLower == s)
        simp only [Manifest.part] at h
        omega
      · simp only [update_manifest_doc, Manifest.part, List.countP_append,
          List.countP_cons, List.countP_nil, hpred, Bool.false_eq_true,
          if_false, Nat.add_zero]
        have hle := countP_filter_le data.bottles
          (fun d => !((recName d).toLower == p.name.toLower))
          (fun d => (recName d).toLower == s)
        simp only [Manifest.part] at h
        omega

/-- Witness for `update_manifest_unique_per_name` at a concrete ledger. -/
theorem update_manifest_unique_per_name_witness :
    ((update_manifest_doc ⟨[], []⟩
        ⟨"Foo", "Foo!", "d", "u", none, none, none, none⟩ .port).part .port).countP
      (fun d => (recName d).toLower == "Foo".toLower) ≤ 1 :=
  (update_manifest_unique_per_name ⟨[], []⟩
      ⟨"Foo", "Foo!", "d", "u", none, none, none, none⟩ .port).2.2
    "Foo".toLower (by decide)

/-! ## Atomic ledger write — `_update_manifest`, download.py lines 213–240

The on-disk side.  `FileContent` is what an observer reading the ledger
path can parse: the file may be missing, hold unparsable bytes, or hold
a complete document.  `TmpFile` is the state of the `.tmp` sibling: the
interrupted `json.dump` leaves a half-written temporary file, never a
half-written ledger.  `os.replace` is modelled as the atomic rename it
is documented to be.  A `WriteOutcome` oracle says which step of the
write/rename sequence (if any) fails. -/

inductive FileContent
  | absent
  | garbage
  | doc (m : Manifest)
deriving DecidableEq

/-- Lines 214–218: a missing or unparsable ledger is read as the empty
two-partition document. -/
def loadManifest : FileContent → Manifest
  | .doc m => m
  | _ => ⟨[], []⟩

inductive TmpFile
  | absent
  | halfWritten
  | full (m : Manifest)
deriving DecidableEq

structure FsState where
  manifest : FileContent
  tmp : TmpFile
deriving DecidableEq

inductive WriteOutcome
  | ok
  | writeFail
  | renameFail
deriving DecidableEq

/-- `Downloader._update_manifest`, whole body: the sequence of file-system
states an observer can see, plus the log lines printed.  The first state
is the pre-state; `ok` traverses tmp-written then renamed; a failing
`json.dump`/`fsync` leaves a half-written tmp which the handler unlinks;
a failing `os.replace` leaves the full tmp which the handler unlinks. -/
def update_manifest (fs : FsState) (p : Port) (kind : Kind) (o : WriteOutcome) :
    List FsState × List String :=
  let newDoc := update_manifest_doc (loadManifest fs.manifest) p kind
  match o with
  | .ok =>
      ([fs, ⟨fs.manifest, .full newDoc⟩, ⟨.doc newDoc, .absent⟩], [])
  | .writeFail =>
      ([fs, ⟨fs.manifest, .halfWritten⟩, ⟨fs.manifest, .absent⟩],
       ["[ERROR] Manifest update failed"])
  | .renameFail =>
      ([fs, ⟨fs.manifest, .full newDoc⟩, ⟨fs.manifest, .absent⟩],
       ["[ERROR] Manifest update failed"])

/-- C2: every state in the write/rename sequence shows the ledger path as
either the complete old content or the complete new document; on failure
the final state has the old ledger intact and the temporary file removed,
and an error is logged; on success the final state is the new document. -/
theorem update_manifest_atomic (fs : FsState) (p : Port) (kind : Kind)
    (o : WriteOutcome) :
    (∀ s ∈ (update_manifest fs p kind o).1,
        s.manifest = fs.manifest
        ∨ s.manifest = .doc (update_manifest_doc (loadManifest fs.manifest) p kind))
    ∧ (o ≠ .ok →
        (update_manifest fs p kind o).1.getLast? = some ⟨fs.manifest, .absent⟩
        ∧ (update_manifest fs p kind o).2 = ["[ERROR] Manifest update failed"])
    ∧ (o = .ok →
        (update_manifest fs p kind o).1.getLast? =
          some ⟨.doc (update_manifest_doc (loadManifest fs.manifest) p kind), .absent⟩
        ∧ (update_manifest fs p kind o).2 = []) := by
  refine ⟨?_, ?_, ?_⟩
  · intro s hs
    cases o <;> simp [update_manifest] at hs <;>
      rcases hs with h | h | h <;> simp [h]
  · intro ho
    cases o <;> simp_all [update_manifest, List.getLast?]
  · intro ho
    subst ho
    simp [update_manifest, List.getLast?]

/-- Witness for `update_manifest_atomic` on a concrete failing rename. -/
theorem update_manifest_atomic_witness :
    (update_manifest ⟨.garbage, .absent⟩
        ⟨"A", "A", "d", "u", none, none, none, none⟩ .bottle .renameFail).1.getLast? =
      some ⟨.garbage, .absent⟩ :=
  ((update_manifest_atomic ⟨.garbage, .absent⟩
      ⟨"A", "A", "d", "u", none, none, none, none⟩ .bottle .renameFail).2.1
    (by decide)).1

/-! ## Metadata merge — `AutoInstaller.gamelist_add`, autoinstall.py lines 80–133

A `game` element of a metadata document: `path = some t` means the
element has a `<path>` child whose text is `t` (ElementTree reports the
text of an empty child as `None`, hence the inner `Option`); `payload`
stands for all other children of the element.  The shared index file may
be missing, unparsable, or a parsed document with a root tag and its
`game` children in order. -/

structure Game where
  path : Option (Option String)
  payload : Nat
deriving DecidableEq

inductive GamelistFile
  | absent
  | corrupt
  | doc (tag : String) (games : List Game)
deriving DecidableEq

/-- Lines 88–102: load or create the index root.  A present, parsable file
keeps its games; a root tag that is not `gamelist` case-insensitively is
renamed to `gameList`.  A missing or corrupt file yields a fresh empty
`gameList` root. -/
def loadGamelist : GamelistFile → String × List Game
  | .doc tag games => (if tag.toLower == "gamelist" then tag else "gameList", games)
  | _ => ("gameList", [])

/-- Lines 105–109: the set of `path` texts of target games that have a
`<path>` child. -/
def existingPaths (root : List Game) : List (Option String) :=
  root.filterMap Game.path

/-- Lines 111–119: the merge loop, carrying the growing root, the
`existing_paths` set and the `count` local. -/
def mergeLoop : List Game → List Game → List (Option String) → Nat →
    List Game × List (Option String) × Nat
  | [], root, ex, count => (root, ex, count)
  | g :: rest, root, ex, count =>
    match g.path with
    | none => mergeLoop rest root ex count
    | some t =>
      if t ∈ ex then mergeLoop rest root ex count
      else mergeLoop rest (root ++ [g]) (t :: ex) (count + 1)

/-- The merged root and the number of appended entries. -/
def mergeGames (root : List Game) (src : List Game) : List Game × Nat :=
  let r := mergeLoop src root (existingPaths root) 0
  (r.1, r.2.2)

/-- Observable outcome of a `gamelist_add` call: the index file finally on
disk, the `count` local, whether `tree.write` ran, and the Python return
value (the function is annotated `-> None` and has no `return expr`). -/
structure MergeResult where
  disk : GamelistFile
  count : Nat
  wrote : Bool
  ret : Option Nat
deriving DecidableEq

deriving instance DecidableEq for Except

/-- `AutoInstaller.gamelist_add`.  `gameinfo = none` models an
`ET.ParseError` on the source document (logged, early return).  The write
is attempted only when `count > 0`; a failing `tree.write` (oracle
`writeOk = false`) raises out of the function (`Except.error`), since the
surrounding code catches only `ET.ParseError`. -/
def gamelist_add (gameinfo : Option (List Game)) (gfile : GamelistFile)
    (writeOk : Bool) : Except Unit MergeResult :=
  match gameinfo with
  | none => .ok ⟨gfile, 0, false, none⟩
  | some src =>
    let tg := loadGamelist gfile
    let m := mergeGames tg.2 src
    if m.2 > 0 then
      if writeOk then .ok ⟨.doc tg.1 m.1, m.2, true, none⟩
      else .error ()
    else .ok ⟨gfile, m.2, false, none⟩

/-- The sublist of `src` that the merge loop appends, starting from the
path set `ex`. -/
def keptGames : List Game → List (Option String) → List Game
  | [], _ => []
  | g :: rest, ex =>
    match g.path with
    | none => keptGames rest ex
    | some t => if t ∈ ex then keptGames rest ex else g :: keptGames rest (t :: ex)

/-- The path set after the merge loop has processed `src` starting from
`ex`. -/
def pathsSeen : List Game → List (Option String) → List (Option String)
  | [], ex => ex
  | g :: rest, ex =>
    match g.path with
    | none => pathsSeen rest ex
    | some t => if t ∈ ex then pathsSeen rest ex else pathsSeen rest (t :: ex)

lemma mergeLoop_eq (src : List Game) : ∀ root ex count,
    mergeLoop src root ex count =
      (root ++ keptGames src ex, pathsSeen src ex,
       count + (keptGames src ex).length) := by
  induction src with
  | nil => intro root ex count; simp [mergeLoop, keptGames, pathsSeen]
  | cons g rest ih =>
    intro root ex count
    cases hp : g.path with
    | none => simp [mergeLoop, keptGames, pathsSeen, hp, ih]
    | some t =>
      by_cases ht : t ∈ ex
      · simp [mergeLoop, keptGames, pathsSeen, hp, ht, ih]
      · simp [mergeLoop, keptGames, pathsSeen, hp, ht, ih, List.append_assoc]
        omega

lemma mem_pathsSeen (src : List Game) : ∀ ex x,
    x ∈ pathsSeen src ex ↔ x ∈ ex ∨ x ∈ src.filterMap Game.path := by
  induction src with
  | nil => intro ex x; simp [pathsSeen]
  | cons g rest ih =>
    intro ex x
    cases hp : g.path with
    | none => simp [pathsSeen, hp, ih, List.filterMap_cons, hp]
    | some t =>
      by_cases ht : t ∈ ex
      · simp only [pathsSeen, hp, ht, if_true, ih, List.filterMap_cons, hp,
          List.mem_cons]
        constructor
        · rintro (h | h)
          · exact Or.inl h
          · exact Or.inr (Or.inr h)
        · rintro (h | h | h)
          · exact Or.inl h
          · exact Or.inl (h ▸ ht)
          · exact Or.inr h
      · simp only [pathsSeen, hp, ht, if_false, ih, List.filterMap_cons, hp,
          List.mem_cons]
        tauto

lemma keptGames_append (s1 s2 : List Game) : ∀ ex,
    keptGames (s1 ++ s2) ex = keptGames s1 ex ++ keptGames s2 (pathsSeen s1 ex) := by
  induction s1 with
  | nil => intro ex; simp [keptGames, pathsSeen]
  | cons g rest ih =>
    intro ex
    cases hp : g.path with
    | none => simp [keptGames, pathsSeen, hp, ih]
    | some t =>
      by_cases ht : t ∈ ex
      · simp [keptGames, pathsSeen, hp, ht, ih]
      · simp [keptGames, pathsSeen, hp, ht, ih]

lemma keptGames_cons_none {g : Game} {rest : List Game} {ex : List (Option String)}
    (hp : g.path = none) : keptGames (g :: rest) ex = keptGames rest ex := by
  simp [keptGames, hp]

lemma keptGames_cons_some {g : Game} {rest : List Game} {ex : List (Option String)}
    {t : Option String} (hp : g.path = some t) :
    keptGames (g :: rest) ex =
      if t ∈ ex then keptGames rest ex else g :: keptGames rest (t :: ex) := by
  simp [keptGames, hp]

lemma keptGames_subset (src : List Game) : ∀ ex g, g ∈ keptGames src ex →
    (Game.path g).isSome ∧ g ∈ src := by
  induction src with
  | nil => intro ex g h; simp [keptGames] at h
  | cons a rest ih =>
    intro ex g h
    cases hp : a.path with
    | none =>
      rw [keptGames_cons_none hp] at h
      rcases ih ex g h with ⟨h1, h2⟩
      exact ⟨h1, List.mem_cons_of_mem a h2⟩
    | some t =>
      rw [keptGames_cons_some hp] at h
      by_cases ht : t ∈ ex
      · rw [if_pos ht] at h
        rcases ih ex g h with ⟨h1, h2⟩
        exact ⟨h1, List.mem_cons_of_mem a h2⟩
      · rw [if_neg ht] at h
        rcases List.mem_cons.mp h with h | h
        · subst h; simp [hp]
        · rcases ih (t :: ex) g h with ⟨h1, h2⟩
          exact ⟨h1, List.mem_cons_of_mem a h2⟩

lemma keptGames_nil_of_all_mem (src : List Game) : ∀ ex,
    (∀ g ∈ src, ∀ t, Game.path g = some t → t ∈ ex) → keptGames src ex = [] := by
  induction src with
  | nil => intro ex _; simp [keptGames]
  | cons g rest ih =>
    intro ex h
    cases hp : g.path with
    | none =>
      rw [keptGames_cons_none hp]
      exact ih ex fun a ha => h a (List.mem_cons_of_mem g ha)
    | some t =>
      rw [keptGames_cons_some hp, if_pos (h g (List.mem_cons_self g rest) t hp)]
      exact ih ex fun a ha => h a (List.mem_cons_of_mem g ha)

lemma keptGames_all_fresh (src : List Game) : ∀ ex,
    (∀ g ∈ src, (Game.path g).isSome) → (src.filterMap Game.path).Nodup →
    (∀ t ∈ src.filterMap Game.path, t ∉ ex) → keptGames src ex = src := by
  induction src with
  | nil => intro ex _ _ _; simp [keptGames]
  | cons g rest ih =>
    intro ex hsome hnd hdis
    rcases Option.isSome_iff_exists.mp (hsome g (List.mem_cons_self g rest)) with ⟨t, hp⟩
    have hfm : (g :: rest).filterMap Game.path = t :: rest.filterMap Game.path := by
      simp [List.filterMap_cons, hp]
    rw [hfm] at hnd hdis
    have ht : t ∉ ex := hdis t (List.mem_cons_self _ _)
    rw [keptGames_cons_some hp, if_neg ht]
    congr 1
    apply ih
    · exact fun a ha => hsome a (List.mem_cons_of_mem g ha)
    · exact hnd.of_cons
    · intro u hu
      simp only [List.mem_cons]
      push_neg
      refine ⟨?_, hdis u (List.mem_cons_of_mem t hu)⟩
      intro hut
      subst hut
      exact (List.nodup_cons.mp hnd).1 hu

lemma mergeGames_eq (root src : List Game) :
    mergeGames root src =
      (root ++ keptGames src (existingPaths root),
       (keptGames src (existingPaths root)).length) := by
  simp [mergeGames, mergeLoop_eq]

lemma take_succ_get {α : Type} (l : List α) (i : Nat) (hi : i < l.length) :
    l.take (i + 1) = l.take i ++ [l.get ⟨i, hi⟩] := by
  rw [List.take_succ]
  simp [List.getElem?_eq_getElem hi]

/-- Processing one more source entry either appends exactly that entry
(when its path is fresh relative to the target and the earlier source
entries) or changes nothing. -/
lemma merge_take_succ_cases (root src : List Game) (i : Nat) (hi : i < src.length) :
    (mergeGames root (src.take (i + 1)) =
        ((mergeGames root (src.take i)).1 ++ [src.get ⟨i, hi⟩],
         (mergeGames root (src.take i)).2 + 1)
      ∧ ∃ t, (src.get ⟨i, hi⟩).path = some t ∧ t ∉ existingPaths root
          ∧ t ∉ (src.take i).filterMap Game.path)
    ∨ (mergeGames root (src.take (i + 1)) = mergeGames root (src.take i)
      ∧ ¬∃ t, (src.get ⟨i, hi⟩).path = some t ∧ t ∉ existingPaths root
          ∧ t ∉ (src.take i).filterMap Game.path) := by
  have htake := take_succ_get src i hi
  have hker := keptGames_append (src.take i) [src.get ⟨i, hi⟩] (existingPaths root)
  cases hp : (src.get ⟨i, hi⟩).path with
  | none =>
    right
    constructor
    · rw [mergeGames_eq, mergeGames_eq, htake, hker, keptGames_cons_none hp]
      simp [keptGames]
    · rintro ⟨t, ht, -, -⟩
      exact Option.noConfusion ht
  | some t =>
    by_cases hmem : t ∈ pathsSeen (src.take i) (existingPaths root)
    · right
      constructor
      · rw [mergeGames_eq, mergeGames_eq, htake, hker,
          keptGames_cons_some hp, if_pos hmem]
        simp [keptGames]
      · rintro ⟨t', ht', hE, hF⟩
        have htt : t' = t := (Option.some.inj ht').symm
        subst htt
        rcases (mem_pathsSeen _ _ _).mp hmem with h | h
        · exact hE h
        · exact hF h
    · left
      refine ⟨?_, ⟨t, rfl, ?_, ?_⟩⟩
      · rw [mergeGames_eq, mergeGames_eq, htake, hker,
          keptGames_cons_some hp, if_neg hmem]
        simp [keptGames, List.append_assoc]
      · intro hE
        exact hmem ((mem_pathsSeen _ _ _).mpr (Or.inl hE))
      · intro hF
        exact hmem ((mem_pathsSeen _ _ _).mpr (Or.inr hF))

/-- Concrete game elements used in witnesses and counterexamples. -/
def gA : Game := ⟨some (some "ports/A.sh"), 0⟩

def gB : Game := ⟨some (some "ports/B.sh"), 1⟩

def gNoPath : Game := ⟨none, 2⟩

/-- C3: the merge deduplicates by path with first-wins semantics.  A source
entry is appended (with the count incremented) exactly when it has a path
that occurs neither in the pre-existing target nor among the paths of
earlier source entries; otherwise the merge state is unchanged.  A source
document whose entries' paths all already exist leaves the target
unchanged, reports count 0, and performs no write; a source document whose
entries all carry pairwise-distinct paths disjoint from the target yields
the union in original order with the new entries appended at the end. -/
theorem gamelist_merge_first_wins (gfile : GamelistFile) (source : List Game)
    (writeOk : Bool) :
    (∀ i (hi : i < source.length),
      ((mergeGames (loadGamelist gfile).2 (source.take (i + 1))).1
          = (mergeGames (loadGamelist gfile).2 (source.take i)).1
            ++ [source.get ⟨i, hi⟩]
        ∧ (mergeGames (loadGamelist gfile).2 (source.take (i + 1))).2
          = (mergeGames (loadGamelist gfile).2 (source.take i)).2 + 1) ↔
      (∃ t, (source.get ⟨i, hi⟩).path = some t
          ∧ t ∉ existingPaths (loadGamelist gfile).2
          ∧ t ∉ (source.take i).filterMap Game.path))
    ∧ (∀ i (hi : i < source.length),
        (¬∃ t, (source.get ⟨i, hi⟩).path = some t
            ∧ t ∉ existingPaths (loadGamelist gfile).2
            ∧ t ∉ (source.take i).filterMap Game.path) →
        mergeGames (loadGamelist gfile).2 (source.take (i + 1))
          = mergeGames (loadGamelist gfile).2 (source.take i))
    ∧ ((∀ g ∈ source, ∀ t, Game.path g = some t →
          t ∈ existingPaths (loadGamelist gfile).2) →
        mergeGames (loadGamelist gfile).2 source = ((loadGamelist gfile).2, 0)
        ∧ gamelist_add (some source) gfile writeOk = .ok ⟨gfile, 0, false, none⟩)
    ∧ ((∀ g ∈ source, (Game.path g).isSome) →
        (source.filterMap Game.path).Nodup →
        (∀ t ∈ source.filterMap Game.path,
          t ∉ existingPaths (loadGamelist gfile).2) →
        mergeGames (loadGamelist gfile).2 source
          = ((loadGamelist gfile).2 ++ source, source.length)) := by
  refine ⟨?_, ?_, ?_, ?_⟩
  · intro i hi
    rcases merge_take_succ_cases (loadGamelist gfile).2 source i hi with
      ⟨he, hex⟩ | ⟨he, hex⟩
    · constructor
      · intro _
        exact hex
      · intro _
        rw [he]
        exact ⟨rfl, rfl⟩
    · constructor
      · rintro ⟨-, h2⟩
        rw [he] at h2
        omega
      · intro hcon
        exact absurd hcon hex
  · intro i hi hn
    rcases merge_take_succ_cases (loadGamelist gfile).2 source i hi with
      ⟨-, hex⟩ | ⟨he, -⟩
    · exact absurd hex hn
    · exact he
  · intro hall
    have hk : keptGames source (existingPaths (loadGamelist gfile).2) = [] :=
      keptGames_nil_of_all_mem source _ hall
    have hm : mergeGames (loadGamelist gfile).2 source
        = ((loadGamelist gfile).2, 0) := by
      rw [mergeGames_eq, hk]
      simp
    refine ⟨hm, ?_⟩
    simp [gamelist_add, hm]
  · intro h1 h2 h3
    have hk := keptGames_all_fresh source (existingPaths (loadGamelist gfile).2)
      h1 h2 h3
    rw [mergeGames_eq, hk]

/-- Witness for `gamelist_merge_first_wins`: one fresh-path entry merged
into a one-entry index yields the two-entry union. -/
theorem gamelist_merge_first_wins_witness :
    mergeGames (loadGamelist (.doc "gameList" [gA])).2 [gB]
      = ((loadGamelist (.doc "gameList" [gA])).2 ++ [gB], 1) :=
  (gamelist_merge_first_wins (.doc "gameList" [gA]) [gB] true).2.2.2
    (by decide) (by decide) (by decide)

/-- C10: a source entry with no `path` child never reaches the index and is
never counted: the merged root is the target followed by appended entries
that all carry a `path` child and all come from the source, and the count
equals the number of appended entries. -/
theorem merge_skips_pathless (target source : List Game) :
    (mergeGames target source).1.take target.length = target
    ∧ (∀ g ∈ (mergeGames target source).1.drop target.length,
        (Game.path g).isSome ∧ g ∈ source)
    ∧ (mergeGames target source).2
      = ((mergeGames target source).1.drop target.length).length := by
  refine ⟨?_, ?_, ?_⟩
  · simp [mergeGames_eq, List.take_left]
  · intro g hg
    rw [mergeGames_eq] at hg
    simp only [List.drop_left] at hg
    exact keptGames_subset source _ g hg
  · simp [mergeGames_eq, List.drop_left]

/-- Witness for `merge_skips_pathless`: in a merge whose source holds a
pathless and a pathful entry, the appended region consists of entries with
a path. -/
theorem merge_skips_pathless_witness :
    (Game.path gB).isSome ∧ gB ∈ [gNoPath, gB] :=
  (merge_skips_pathless [] [gNoPath, gB]).2.1 gB (by decide)

/-- C4 counterexample: `gamelist_add` adds one entry (count 1) but its
Python return value is `None`, not the count — the function is annotated
`-> None` and has no `return expr` statement. -/
theorem gamelist_add_return_value_cex :
    (gamelist_add (some [gB]) GamelistFile.absent true).map MergeResult.count
      = Except.ok 1
    ∧ (gamelist_add (some [gB]) GamelistFile.absent true).map MergeResult.ret
      = Except.ok none
    ∧ (Except.ok (none : Option Nat) : Except Unit (Option Nat))
      ≠ Except.ok (some 1) := by
  decide

/-- C4 amended: the operation computes the count of newly added entries
internally (the logged `count` local equals the number of entries appended
to the index) but returns no value (`None`). -/
theorem gamelist_add_counts_but_returns_none (gameinfo : Option (List Game))
    (gfile : GamelistFile) (writeOk : Bool) (r : MergeResult)
    (h : gamelist_add gameinfo gfile writeOk = .ok r) :
    r.ret = none
    ∧ (loadGamelist r.disk).2.take (loadGamelist gfile).2.length
      = (loadGamelist gfile).2
    ∧ r.count
      = (loadGamelist r.disk).2.length - (loadGamelist gfile).2.length := by
  cases gameinfo with
  | none =>
    simp [gamelist_add] at h
    subst h
    simp [List.take_length]
  | some src =>
    by_cases hc : (mergeGames (loadGamelist gfile).2 src).2 > 0
    · cases writeOk with
      | false => simp [gamelist_add, hc] at h
      | true =>
        simp [gamelist_add, hc] at h
        subst h
        refine ⟨rfl, ?_, ?_⟩
        · simp only [loadGamelist, mergeGames_eq]
          simp [List.take_left]
        · simp only [loadGamelist, mergeGames_eq]
          simp
    · simp [gamelist_add, hc] at h
      subst h
      rw [mergeGames_eq] at hc
      simp only [not_lt, Nat.le_zero] at hc
      refine ⟨rfl, by simp [List.take_length], ?_⟩
      rw [mergeGames_eq]
      simp [hc]

/-- Witness for `gamelist_add_counts_but_returns_none` at a concrete call. -/
theorem gamelist_add_counts_but_returns_none_witness :
    (⟨.doc "gameList" [gB], 1, true, none⟩ : MergeResult).ret = none :=
  (gamelist_add_counts_but_returns_none (some [gB]) .absent true
    ⟨.doc "gameList" [gB], 1, true, none⟩ (by decide)).1

/-! ## Install engine — `AutoInstaller.install_zip`, autoinstall.py lines 20–78

The staged archive either fails to open (`BadZipFile`) or lists its entry
names.  Oracles: whether `zf.extractall` succeeds, whether the extracted
`gameinfo.xml` candidate is a regular file, the parse result of that
document, the state of the destination `gamelist.xml`, and whether the
merged index write succeeds.  Only the observables the claims speak about
are returned: the status code, whether the staged archive still exists
afterwards, and the final index file. -/

inductive ZipArchive
  | badZip
  | valid (entries : List String)
deriving DecidableEq

/-- Python `str.endswith`, evaluated on the character lists of the two
strings. -/
def endsWithStr (s post : String) : Bool := post.data.isSuffixOf s.data

/-- Lines 30–34: the first entry name ending in `port.json` or
`bottle.json`. -/
def findDescriptor (entries : List String) : Option String :=
  entries.find? (fun f => endsWithStr f "port.json" || endsWithStr f "bottle.json")

/-- Lines 55–61: a `gameinfo.xml` entry is used when the archive lists one
and the extracted candidate is a regular file. -/
def findGameinfo (entries : List String) (isFile : Bool) : Bool :=
  entries.any (fun f => endsWithStr f "gameinfo.xml") && isFile

structure InstallEnv where
  fileOnDisk : Bool
  archive : ZipArchive
  extractOk : Bool
  gameinfoIsFile : Bool
  gameinfoDoc : Option (List Game)
  gamelist : GamelistFile
  writeOk : Bool
deriving DecidableEq

structure InstallResult where
  status : Nat
  archiveRemains : Bool
  gamelist : GamelistFile
deriving DecidableEq

/-- `AutoInstaller.install_zip`.  Any exception inside the `with` block —
including one propagating out of `gamelist_add` — is caught by the
`except Exception` arm and returns 255 before the `zip_path.unlink`
line, so the staged archive survives; only the fall-through path unlinks
the archive and returns 0. -/
def install_zip (env : InstallEnv) : InstallResult :=
  if !env.fileOnDisk then ⟨255, false, env.gamelist⟩
  else
    match env.archive with
    | .badZip => ⟨255, true, env.gamelist⟩
    | .valid entries =>
      match findDescriptor entries with
      | none => ⟨255, true, env.gamelist⟩
      | some _ =>
        if !env.extractOk then ⟨255, true, env.gamelist⟩
        else if findGameinfo entries env.gameinfoIsFile then
          match gamelist_add env.gameinfoDoc env.gamelist env.writeOk with
          | .error _ => ⟨255, true, env.gamelist⟩
          | .ok r => ⟨0, false, r.disk⟩
        else ⟨0, false, env.gamelist⟩

/-- Whether the metadata-merge step completes without raising. -/
def merge_step_ok (env : InstallEnv) : Bool :=
  match gamelist_add env.gameinfoDoc env.gamelist env.writeOk with
  | .ok _ => true
  | .error _ => false

/-- The primitive conditions under which `install_zip` runs every step to
completion: staged file present, archive opens, a descriptor entry exists,
extraction succeeds, and the merge step (when a metadata document is
found) does not raise. -/
def installSucceeds (env : InstallEnv) : Bool :=
  env.fileOnDisk &&
    match env.archive with
    | .badZip => false
    | .valid entries =>
      (findDescriptor entries).isSome && env.extractOk &&
        (!(findGameinfo entries env.gameinfoIsFile) || merge_step_ok env)

/-- C5: a staged archive that is not a valid container, or has no entry
ending in `port.json`/`bottle.json`, yields a non-zero status with the
archive left in place; and the install returns zero with the archive
deleted exactly when every step of the install completes. -/
theorem install_zip_failure_retains_archive (env : InstallEnv) :
    (env.fileOnDisk = true →
      (env.archive = .badZip
        ∨ ∃ entries, env.archive = .valid entries ∧ findDescriptor entries = none) →
      (install_zip env).status = 255 ∧ (install_zip env).archiveRemains = true)
    ∧ (((install_zip env).status = 0 ∧ (install_zip env).archiveRemains = false)
        ↔ installSucceeds env = true) := by
  constructor
  · rintro h1 (h2 | ⟨entries, h2, h3⟩)
    · simp [install_zip, h1, h2]
    · simp [install_zip, h1, h2, h3]
  · cases hfd : env.fileOnDisk with
    | false => simp [install_zip, installSucceeds, hfd]
    | true =>
      cases har : env.archive with
      | badZip => simp [install_zip, installSucceeds, hfd, har]
      | valid entries =>
        cases hfindd : findDescriptor entries with
        | none => simp [install_zip, installSucceeds, hfd, har, hfindd]
        | some d =>
          cases heo : env.extractOk with
          | false => simp [install_zip, installSucceeds, hfd, har, hfindd, heo]
          | true =>
            cases hgi : findGameinfo entries env.gameinfoIsFile with
            | false =>
              simp [install_zip, installSucceeds, hfd, har, hfindd, heo, hgi]
            | true =>
              cases hga : gamelist_add env.gameinfoDoc env.gamelist env.writeOk with
              | error e =>
                simp [install_zip, installSucceeds, hfd, har, hfindd, heo, hgi,
                  merge_step_ok, hga]
              | ok r =>
                simp [install_zip, installSucceeds, hfd, har, hfindd, heo, hgi,
                  merge_step_ok, hga]

/-- Witness for `install_zip_failure_retains_archive` on a present but
unreadable archive. -/
theorem install_zip_failure_retains_archive_witness :
    (install_zip ⟨true, .badZip, true, false, none, .absent, true⟩).status = 255
    ∧ (install_zip ⟨true, .badZip, true, false, none, .absent, true⟩).archiveRemains
      = true :=
  (install_zip_failure_retains_archive
      ⟨true, .badZip, true, false, none, .absent, true⟩).1 rfl (Or.inl rfl)

/-- C6 counterexample: an archive whose container opens, whose descriptor is
found and whose extraction succeeds, but whose metadata-merge step fails
in the index write, makes the install return 255 with the staged archive
still present — the merge failure propagates (only `ET.ParseError` is
caught inside `gamelist_add`) and blocks archive cleanup. -/
theorem install_merge_failure_blocks_cleanup_cex :
    (install_zip ⟨true, .valid ["stuff/port.json", "stuff/gameinfo.xml"], true,
        true, some [gB], .absent, false⟩).status = 255
    ∧ (install_zip ⟨true, .valid ["stuff/port.json", "stuff/gameinfo.xml"], true,
        true, some [gB], .absent, false⟩).archiveRemains = true
    ∧ findDescriptor ["stuff/port.json", "stuff/gameinfo.xml"]
      = some "stuff/port.json"
    ∧ gamelist_add (some [gB]) GamelistFile.absent false = .error () := by
  decide

/-- C6 amended: a merge failure caused by the extracted metadata document
failing to parse is logged and not propagated — the install still deletes
the staged archive and returns success. -/
theorem install_merge_parse_failure_nonfatal (env : InstallEnv)
    (entries : List String)
    (h1 : env.fileOnDisk = true)
    (h2 : env.archive = .valid entries)
    (h3 : (findDescriptor entries).isSome = true)
    (h4 : env.extractOk = true)
    (h5 : env.gameinfoDoc = none) :
    (install_zip env).status = 0 ∧ (install_zip env).archiveRemains = false
    ∧ gamelist_add env.gameinfoDoc env.gamelist env.writeOk
      = .ok ⟨env.gamelist, 0, false, none⟩ := by
  obtain ⟨d, hd⟩ := Option.isSome_iff_exists.mp h3
  have hga : gamelist_add env.gameinfoDoc env.gamelist env.writeOk
      = .ok ⟨env.gamelist, 0, false, none⟩ := by
    rw [h5]
    rfl
  refine ⟨?_, ?_, hga⟩ <;>
    cases hgi : findGameinfo entries env.gameinfoIsFile <;>
      simp [install_zip, h1, h2, h4, hd, hgi, hga]

/-- Witness for `install_merge_parse_failure_nonfatal` on an archive whose
`gameinfo.xml` is unparsable. -/
theorem install_merge_parse_failure_nonfatal_witness :
    (install_zip ⟨true, .valid ["a/port.json", "a/gameinfo.xml"], true, true,
        none, .absent, true⟩).status = 0
    ∧ (install_zip ⟨true, .valid ["a/port.json", "a/gameinfo.xml"], true, true,
        none, .absent, true⟩).archiveRemains = false
    ∧ gamelist_add none GamelistFile.absent true
      = .ok ⟨GamelistFile.absent, 0, false, none⟩ :=
  install_merge_parse_failure_nonfatal
    ⟨true, .valid ["a/port.json", "a/gameinfo.xml"], true, true, none, .absent, true⟩
    ["a/port.json", "a/gameinfo.xml"] rfl rfl (by decide) rfl rfl

/-! ## Image sync — `Downloader.fetch_repo_images`, download.py lines 90–150

State of one catalog source's image directory: the image files other than
the descriptor `images.json` and the temporary `images.zip`; the
descriptor content (`MetaFile.doc` is a parsed JSON object with optional
`id`/`size` keys, `malformed` an unparsable file); and whether the
temporary archive is present.  Oracles: the release query, the archive
download, the extraction (a failing extraction leaves whatever it managed
to extract), and the descriptor write (a failing `json.dump` truncates
the descriptor). -/

inductive MetaFile
  | absent
  | malformed
  | doc (id : Option Nat) (size : Option Nat)
deriving DecidableEq

/-- Lines 99–103 plus the two `local_meta.get` calls: a missing or
unparsable descriptor reads as the empty object, whose `get`s are `None`. -/
def readMeta : MetaFile → Option Nat × Option Nat
  | .doc i s => (i, s)
  | _ => (none, none)

/-- A release asset object: `asset.get("id")` and `asset.get("size", 0)`. -/
structure Asset where
  id : Option Nat
  size : Option Nat
deriving DecidableEq

def Asset.remoteSize (a : Asset) : Nat := a.size.getD 0

structure ImgState where
  images : List String
  meta : MetaFile
  tmpZip : Bool
deriving DecidableEq

inductive QueryResult
  | qFail
  | qOk (assets : List (String × Asset))
deriving DecidableEq

inductive FetchResult
  | fFail
  | fOk
deriving DecidableEq

inductive ExtractResult
  | eFail (leftover : List String)
  | eOk (contents : List String)
deriving DecidableEq

structure ImgEnv where
  hasUrls : Bool
  query : QueryResult
  fetch : FetchResult
  extract : ExtractResult
  metaWriteOk : Bool
deriving DecidableEq

structure ImgResult where
  state : ImgState
  fetchedArchive : Bool
deriving DecidableEq

/-- `Downloader.fetch_repo_images`.  Early returns: missing repo URLs,
failed release query, no `images.zip` asset, or cached descriptor equal to
the remote `(id, size)` — each leaves the directory untouched and fetches
nothing.  Otherwise the archive is downloaded (a fetch failure unlinks the
temp archive and changes nothing else), every old file except the
descriptor and the temp archive is deleted, the archive is extracted over
the cleaned directory, the descriptor is rewritten with the remote id and
size, and the temp archive is unlinked; the `except` arm unlinks the temp
archive on any failure. -/
def fetch_repo_images (st : ImgState) (env : ImgEnv) : ImgResult :=
  if !env.hasUrls then ⟨st, false⟩
  else
    match env.query with
    | .qFail => ⟨st, false⟩
    | .qOk assets =>
      match (assets.find? (fun a => a.1 == "images.zip")).map Prod.snd with
      | none => ⟨st, false⟩
      | some asset =>
        if (readMeta st.meta).1 == asset.id
            && (readMeta st.meta).2 == some asset.remoteSize then
          ⟨st, false⟩
        else
          match env.fetch with
          | .fFail => ⟨⟨st.images, st.meta, false⟩, true⟩
          | .fOk =>
            match env.extract with
            | .eFail leftover => ⟨⟨leftover, st.meta, false⟩, true⟩
            | .eOk contents =>
              if env.metaWriteOk then
                ⟨⟨contents, .doc asset.id (some asset.remoteSize), false⟩, true⟩
              else
                ⟨⟨contents, .malformed, false⟩, true⟩

/-- C7: when the cached descriptor's id and size both equal the remote
asset's id and size, no archive download happens and the image directory
is completely untouched; when they differ and the fetch, extraction and
descriptor write succeed, the image set is exactly the new archive's
contents and the descriptor holds the remote id and size. -/
theorem fetch_repo_images_short_circuit (st : ImgState) (env : ImgEnv)
    (assets : List (String × Asset)) (asset : Asset)
    (h1 : env.hasUrls = true) (h2 : env.query = .qOk assets)
    (h3 : (assets.find? (fun a => a.1 == "images.zip")).map Prod.snd = some asset) :
    ((readMeta st.meta).1 = asset.id
      ∧ (readMeta st.meta).2 = some asset.remoteSize →
      fetch_repo_images st env = ⟨st, false⟩)
    ∧ (¬((readMeta st.meta).1 = asset.id
          ∧ (readMeta st.meta).2 = some asset.remoteSize) →
        ∀ contents, env.fetch = .fOk → env.extract = .eOk contents →
        env.metaWriteOk = true →
        fetch_repo_images st env
          = ⟨⟨contents, .doc asset.id (some asset.remoteSize), false⟩, true⟩) := by
  constructor
  · rintro ⟨hid, hsz⟩
    simp [fetch_repo_images, h1, h2, h3, hid, hsz]
  · intro hne contents hf he hw
    have hcond : ((readMeta st.meta).1 == asset.id
        && (readMeta st.meta).2 == some asset.remoteSize) = false := by
      cases hb : ((readMeta st.meta).1 == asset.id
          && (readMeta st.meta).2 == some asset.remoteSize) with
      | false => rfl
      | true => exact absurd (by simpa using hb) hne
    simp [fetch_repo_images, h1, h2, h3, hcond, hf, he, hw]

/-- Witness for `fetch_repo_images_short_circuit`: an up-to-date cache is
left untouched. -/
theorem fetch_repo_images_short_circuit_witness :
    fetch_repo_images ⟨["a.png"], .doc (some 7) (some 1000), false⟩
        ⟨true, .qOk [("images.zip", ⟨some 7, some 1000⟩)], .fOk, .eOk [], true⟩
      = ⟨⟨["a.png"], .doc (some 7) (some 1000), false⟩, false⟩ :=
  (fetch_repo_images_short_circuit
      ⟨["a.png"], .doc (some 7) (some 1000), false⟩
      ⟨true, .qOk [("images.zip", ⟨some 7, some 1000⟩)], .fOk, .eOk [], true⟩
      [("images.zip", ⟨some 7, some 1000⟩)] ⟨some 7, some 1000⟩
      rfl rfl (by decide)).1 (by decide)

/-- C8 counterexample: with a stale cache, a successful download followed
by a failing extraction leaves the image directory emptied of its previous
files (they were deleted before extraction and are not restored), so the
previous image set is not preserved. -/
theorem fetch_repo_images_not_atomic_cex :
    (fetch_repo_images ⟨["old.png"], .doc (some 7) (some 1000), false⟩
        ⟨true, .qOk [("images.zip", ⟨some 8, some 1000⟩)], .fOk, .eFail [], true⟩).state.images
      = []
    ∧ (fetch_repo_images ⟨["old.png"], .doc (some 7) (some 1000), false⟩
        ⟨true, .qOk [("images.zip", ⟨some 8, some 1000⟩)], .fOk, .eFail [], true⟩).state.images
      ≠ ["old.png"] := by
  decide

/-- C8 amended: once the sync has passed the staleness check (repo URLs
present, release query succeeded, an `images.zip` asset found, cached
descriptor differing from the remote id/size), a failing *fetch* of the
new archive removes the temporary archive and leaves the previous image
set and descriptor exactly as they were; a failing *extraction*, however,
is not atomic: the old image files were already deleted, so the directory
holds exactly whatever the failed extraction left behind, with only the
descriptor unchanged and the temporary archive removed. -/
theorem fetch_repo_images_fetch_failure_preserves (st : ImgState) (env : ImgEnv)
    (assets : List (String × Asset)) (asset : Asset)
    (h1 : env.hasUrls = true) (h2 : env.query = .qOk assets)
    (h3 : (assets.find? (fun a => a.1 == "images.zip")).map Prod.snd = some asset)
    (hstale : ¬((readMeta st.meta).1 = asset.id
        ∧ (readMeta st.meta).2 = some asset.remoteSize)) :
    (env.fetch = .fFail →
        fetch_repo_images st env = ⟨⟨st.images, st.meta, false⟩, true⟩)
    ∧ (∀ leftover, env.fetch = .fOk → env.extract = .eFail leftover →
        fetch_repo_images st env = ⟨⟨leftover, st.meta, false⟩, true⟩) := by
  have hcond : ((readMeta st.meta).1 == asset.id
      && (readMeta st.meta).2 == some asset.remoteSize) = false := by
    cases hb : ((readMeta st.meta).1 == asset.id
        && (readMeta st.meta).2 == some asset.remoteSize) with
    | false => rfl
    | true => exact absurd (by simpa using hb) hstale
  constructor
  · intro hf
    simp [fetch_repo_images, h1, h2, h3, hcond, hf]
  · intro leftover hf he
    simp [fetch_repo_images, h1, h2, h3, hcond, hf, he]

/-- Witness for `fetch_repo_images_fetch_failure_preserves`: a concrete
failing extraction leaves exactly the partially extracted file, the old
descriptor, and no temporary archive. -/
theorem fetch_repo_images_fetch_failure_preserves_witness :
    fetch_repo_images ⟨["old.png"], .doc (some 7) (some 1000), false⟩
        ⟨true, .qOk [("images.zip", ⟨some 8, some 1000⟩)], .fOk,
          .eFail ["part.png"], true⟩
      = ⟨⟨["part.png"], .doc (some 7) (some 1000), false⟩, true⟩ :=
  (fetch_repo_images_fetch_failure_preserves
      ⟨["old.png"], .doc (some 7) (some 1000), false⟩
      ⟨true, .qOk [("images.zip", ⟨some 8, some 1000⟩)], .fOk,
        .eFail ["part.png"], true⟩
      [("images.zip", ⟨some 8, some 1000⟩)] ⟨some 8, some 1000⟩
      rfl rfl (by decide) (by decide)).2 ["part.png"] rfl rfl

/-! ## Download worker — `Downloader.run` / `_download_port`,
download.py lines 56–68 and 155–204

Worker state: the staging directory (names of staged zip files), the
ledger file, and the progress-queue history.  A `DLOutcome` oracle gives
each request's transfer result: `ok` carries the hash and size of the
fully streamed file plus the ledger-write outcome, `err` the formatted
exception text.  The per-chunk progress events of the streaming loop
(percentages and MiB/s throughput, floating point) are elided; the final
sticky event, the failure event and the phase event are kept.  The
queue is the list of entries `run` will `get`, in order; `sentinel`
models the `None` shutdown value. -/

structure Event where
  done : Nat
  total : Nat
  msg : String
  stage : String
deriving DecidableEq

inductive DLOutcome
  | ok (md5 : String) (size : Nat) (write : WriteOutcome)
  | err (msg : String)
deriving DecidableEq

structure WorkerState where
  staged : List String
  ledger : FileContent
  events : List Event
deriving DecidableEq

/-- Writing `{name}.zip` into the staging directory (overwrites). -/
def addName (n : String) (l : List String) : List String :=
  if n ∈ l then l else l ++ [n]

/-- `zip_path.unlink()` under `suppress(OSError)`. -/
def removeName (n : String) (l : List String) : List String :=
  l.filter (fun x => !(x == n))

/-- The ledger file `_update_manifest` leaves behind: the new document on
a successful write/rename, the unchanged previous file otherwise
(matching the final state of `update_manifest`). -/
def update_manifest_file (c : FileContent) (p : Port) (k : Kind)
    (o : WriteOutcome) : FileContent :=
  match o with
  | .ok => .doc (update_manifest_doc (loadManifest c) p k)
  | _ => c

/-- `Downloader._download_port`.  Success: staged file written in full,
final sticky `download` event, `port.md5`/`port.size` set from the staged
bytes, manifest updated.  Failure (`except Exception`): `_fail` emits the
`download`-stage failure event `Failed {name}.zip: {message}` and the
partial staged file is unlinked; nothing is raised. -/
def download_port (p : Port) (k : Kind) (o : DLOutcome)
    (st : WorkerState) : WorkerState :=
  match o with
  | .ok md5 size w =>
      ⟨addName (p.name ++ ".zip") st.staged,
       update_manifest_file st.ledger
         { p with md5 := some md5, size := some size } k w,
       st.events ++ [⟨size, size, "Downloaded: " ++ p.title, "download"⟩]⟩
  | .err m =>
      ⟨removeName (p.name ++ ".zip") st.staged,
       st.ledger,
       st.events ++ [⟨0, 1, "Failed " ++ p.name ++ ".zip: " ++ m, "download"⟩]⟩

/-- `Downloader._run_autoinstall`, observable here only through the phase
event marking that an install pass runs (the per-archive pass over the
sorted staged zips is `install_zip`, modelled above; it does not change
the staging list seen by `run` mid-loop in this model). -/
def run_autoinstall (st : WorkerState) : WorkerState :=
  if st.staged.isEmpty then st
  else { st with events := st.events ++ [⟨0, 1, "Installing packages…", "phase"⟩] }

inductive QEntry
  | sentinel
  | req (p : Port) (k : Kind) (o : DLOutcome)
deriving DecidableEq

/-- `Downloader.run`: drain the queue one request at a time; `None` breaks
the loop; after each request, if the queue is empty at that instant, run
the autoinstall pass. -/
def run : List QEntry → WorkerState → WorkerState
  | [], st => st
  | .sentinel :: _, st => st
  | .req p k o :: rest, st =>
    let st1 := download_port p k o st
    let st2 := if rest.isEmpty then run_autoinstall st1 else st1
    run rest st2

lemma mem_addName (n : String) (l : List String) : n ∈ addName n l := by
  unfold addName
  by_cases h : n ∈ l <;> simp [h]

lemma not_mem_removeName (n : String) (l : List String) : n ∉ removeName n l := by
  simp [removeName, List.mem_filter]

lemma run_autoinstall_staged (st : WorkerState) :
    (run_autoinstall st).staged = st.staged := by
  unfold run_autoinstall
  by_cases h : st.staged.isEmpty <;> simp [h]

/-- C9: a failed transfer emits a `download`-stage failure event carrying
the error, deletes the staged `{name}.zip` file, and does not abort the
consumer loop: the worker processes the remaining queue, and a later
request still completes (its staged file appears). -/
theorem download_failure_continues (st : WorkerState) (p : Port) (k : Kind)
    (m : String) (rest : List QEntry) :
    (⟨0, 1, "Failed " ++ p.name ++ ".zip: " ++ m, "download"⟩ : Event)
      ∈ (download_port p k (.err m) st).events
    ∧ (p.name ++ ".zip") ∉ (download_port p k (.err m) st).staged
    ∧ (rest ≠ [] →
        run (.req p k (.err m) :: rest) st
          = run rest (download_port p k (.err m) st))
    ∧ (∀ p2 k2 md5 size w, p2.name ≠ p.name →
        (p2.name ++ ".zip")
          ∈ (run [.req p k (.err m), .req p2 k2 (.ok md5 size w)] st).staged) := by
  refine ⟨?_, ?_, ?_, ?_⟩
  · simp [download_port]
  · simp only [download_port]
    exact not_mem_removeName _ _
  · intro h
    have hrne : rest.isEmpty = false := by
      cases rest with
      | nil => exact absurd rfl h
      | cons a l => rfl
    simp [run, hrne]
  · intro p2 k2 md5 size w hne
    have hrun : run [.req p k (.err m), .req p2 k2 (.ok md5 size w)] st
        = run_autoinstall (download_port p2 k2 (.ok md5 size w)
            (download_port p k (.err m) st)) := by
      simp [run]
    rw [hrun, run_autoinstall_staged]
    simp only [download_port]
    exact mem_addName _ _

/-- Concrete ports used in the worker witness. -/
def pA : Port := ⟨"A", "A Title", "d", "u", none, none, none, none⟩

def pB : Port := ⟨"B", "B Title", "d", "u", none, none, none, none⟩

/-- Witness for `download_failure_continues`: after a failing download of
`pA`, the queued download of `pB` still completes. -/
theorem download_failure_continues_witness :
    (pB.name ++ ".zip")
      ∈ (run [.req pA .port (.err "timeout"), .req pB .port (.ok "m" 3 .ok)]
          ⟨[], .absent, []⟩).staged :=
  (download_failure_continues ⟨[], .absent, []⟩ pA .port "timeout"
      [.req pB .port (.ok "m" 3 .ok)]).2.2.2 pB .port "m" 3 .ok (by decide)

end Pharos
